import Mathlib

/-!
Verification of the rockcraft extensions extract: the Flask extension
(`src/rockcraft/extensions/flask.py`) and the property-merge contract it
relies on.  Configuration values are modelled as a recursive tree of
scalars, sequences and string-keyed mappings; mappings are association
lists, compared at the lookup level (as Python dict equality ignores
insertion order).
-/

/-- A configuration value: scalar, ordered sequence or string-keyed mapping
(the recursive value type of the configuration documents that
`flask.py` manipulates). -/
inductive Value where
  | scalar : String → Value
  | seq : List Value → Value
  | map : List (String × Value) → Value
deriving Repr

mutual

/-- Decidable equality on configuration values (hand-rolled because the
inductive is nested through lists). -/
def Value.decEq : (a b : Value) → Decidable (a = b)
  | .scalar x, .scalar y =>
    match String.decEq x y with
    | isTrue h => isTrue (by rw [h])
    | isFalse h => isFalse fun hh => h (by cases hh; rfl)
  | .scalar _, .seq _ => isFalse fun h => nomatch h
  | .scalar _, .map _ => isFalse fun h => nomatch h
  | .seq _, .scalar _ => isFalse fun h => nomatch h
  | .seq x, .seq y =>
    match Value.decEqList x y with
    | isTrue h => isTrue (by rw [h])
    | isFalse h => isFalse fun hh => h (by cases hh; rfl)
  | .seq _, .map _ => isFalse fun h => nomatch h
  | .map _, .scalar _ => isFalse fun h => nomatch h
  | .map _, .seq _ => isFalse fun h => nomatch h
  | .map x, .map y =>
    match Value.decEqPairs x y with
    | isTrue h => isTrue (by rw [h])
    | isFalse h => isFalse fun hh => h (by cases hh; rfl)

/-- Decidable equality on lists of configuration values. -/
def Value.decEqList : (a b : List Value) → Decidable (a = b)
  | [], [] => isTrue rfl
  | [], _ :: _ => isFalse fun h => nomatch h
  | _ :: _, [] => isFalse fun h => nomatch h
  | x :: xs, y :: ys =>
    match Value.decEq x y, Value.decEqList xs ys with
    | isTrue h1, isTrue h2 => isTrue (by rw [h1, h2])
    | isFalse h1, _ => isFalse fun hh => h1 (by cases hh; rfl)
    | _, isFalse h2 => isFalse fun hh => h2 (by cases hh; rfl)

/-- Decidable equality on association lists of configuration values. -/
def Value.decEqPairs : (a b : List (String × Value)) → Decidable (a = b)
  | [], [] => isTrue rfl
  | [], _ :: _ => isFalse fun h => nomatch h
  | _ :: _, [] => isFalse fun h => nomatch h
  | (k1, v1) :: xs, (k2, v2) :: ys =>
    match String.decEq k1 k2, Value.decEq v1 v2, Value.decEqPairs xs ys with
    | isTrue h1, isTrue h2, isTrue h3 => isTrue (by rw [h1, h2, h3])
    | isFalse h1, _, _ => isFalse fun hh => h1 (by cases hh; rfl)
    | _, isFalse h2, _ => isFalse fun hh => h2 (by cases hh; rfl)
    | _, _, isFalse h3 => isFalse fun hh => h3 (by cases hh; rfl)

end

instance : DecidableEq Value := Value.decEq

/-- The error kinds surfaced by the extension machinery: scalar conflicts and
kind mismatches from the property merge, the missing `requirements.txt`
prerequisite of the Flask extension (a `ValueError` in the source), and the
failure of treating a non-mapping value as a mapping (an `AttributeError` in
the source). -/
inductive ExtError where
  | conflict : Value → Value → ExtError
  | typeMismatch : Value → Value → ExtError
  | missingRequirementsTxt : ExtError
  | notAMapping : ExtError
deriving DecidableEq, Repr

/-- Deduplicate a list keeping the first occurrence of each element, i.e. the
order-preserving deduplication used by the sequence merge rule (the Python
idiom `OrderedDict.fromkeys`). -/
def ddup {α : Type} [DecidableEq α] : List α → List α
  | [] => []
  | x :: xs => x :: (ddup xs).filter (fun y => decide (y ≠ x))

mutual

/-- Modelled from the spec: the function `apply_extension_property` is
imported by `flask.py` from `rockcraft/extensions/_utils.py`, which is not
part of this extract, so it is defined here from the spec's PropertyMerger
contract (spec section 4.1).  Equal scalars merge to themselves and unequal
scalars are a ConflictError; sequences merge to the base sequence
concatenated with the incoming one, deduplicated keeping first occurrences;
mappings merge recursively by key union; any other pairing of kinds is a
TypeMismatchError. -/
def apply_extension_property : Value → Value → Except ExtError Value
  | .scalar a, .scalar b =>
    if a = b then .ok (.scalar a)
    else .error (.conflict (.scalar a) (.scalar b))
  | .seq a, .seq b => .ok (.seq (ddup (a ++ b)))
  | .map a, .map b =>
    match mergeShared a b with
    | .error e => .error e
    | .ok merged =>
      .ok (.map (merged ++ b.filter (fun p => (List.lookup p.1 a).isNone)))
  | a, b => .error (.typeMismatch a b)

/-- Helper for the recursive mapping rule of `apply_extension_property`: walk
the base mapping in order; a key absent from the incoming side keeps the base
value, a key present on both sides recurses into the property merge; the
first error aborts. -/
def mergeShared : List (String × Value) → List (String × Value) →
    Except ExtError (List (String × Value))
  | [], _ => .ok []
  | (k, v) :: rest, b =>
    match List.lookup k b with
    | none =>
      match mergeShared rest b with
      | .error e => .error e
      | .ok tail => .ok ((k, v) :: tail)
    | some v2 =>
      match apply_extension_property v v2 with
      | .error e => .error e
      | .ok v3 =>
        match mergeShared rest b with
        | .error e => .error e
        | .ok tail => .ok ((k, v3) :: tail)

end

/-- Decidable equality on `Except`, so that concrete merge results can be
checked by `decide`. -/
instance {ε α : Type} [DecidableEq ε] [DecidableEq α] : DecidableEq (Except ε α) := fun x y =>
  match x, y with
  | .ok a, .ok b =>
    if h : a = b then isTrue (by rw [h]) else isFalse fun hh => h (by cases hh; rfl)
  | .ok _, .error _ => isFalse fun h => nomatch h
  | .error _, .ok _ => isFalse fun h => nomatch h
  | .error a, .error b =>
    if h : a = b then isTrue (by rw [h]) else isFalse fun hh => h (by cases hh; rfl)

/-! ## The Flask extension, from `src/rockcraft/extensions/flask.py` -/

/-- The state a `Flask` extension instance sees: the current configuration
document (`self.yaml_data`) and the directory listing of the project root
(the filesystem collaborator `os.listdir(self.project_root)`, with
`requirements.txt` existing iff it appears in the listing). -/
structure FlaskEnv where
  yaml_data : List (String × Value)
  projectRootListing : List String

namespace Flask

/-- Interpret an optional document value as a mapping, as the Python code
does when it calls mapping methods on a `.get(key, {})` result: an absent
value defaults to the empty dict, a present non-mapping value is an error
(an `AttributeError` in Python). -/
def asMap : Option Value → Option (List (String × Value))
  | none => some []
  | some (.map m) => some m
  | some _ => none

/-- Python `dict.update` on association lists: keys of `base` keep their
position with the updated value, keys only in `upd` are appended in `upd`
order. -/
def dictUpdate (base upd : List (String × Value)) : List (String × Value) :=
  base.map (fun p => (p.1, (List.lookup p.1 upd).getD p.2)) ++
    upd.filter (fun p => (List.lookup p.1 base).isNone)

/-- The iteration order fixed here for the property-name set union
`set(base_part.keys()).union(set(new_part.keys()))` of `_merge_part`: base
keys first, then new-only keys, first occurrences only.  (Python set
iteration order is unspecified; the set-level claims are order
independent.) -/
def unionKeys (base new : List (String × Value)) : List String :=
  ddup (base.map Prod.fst ++ new.map Prod.fst)

/-- The loop of `_merge_part`, with the whole local state
`(result, base_part, new_part)` threaded explicitly: each iteration writes
one key into `result` and only reads `base_part` and `new_part`; the first
property-merge error aborts the loop. -/
def mergeLoop :
    List String →
    List (String × Value) × List (String × Value) × List (String × Value) →
    Except ExtError (List (String × Value) × List (String × Value) × List (String × Value))
  | [], st => .ok st
  | k :: ks, (result, base, new) =>
    match List.lookup k base, List.lookup k new with
    | some v, none => mergeLoop ks (result ++ [(k, v)], base, new)
    | none, some v => mergeLoop ks (result ++ [(k, v)], base, new)
    | some v1, some v2 =>
      match apply_extension_property v1 v2 with
      | .error e => .error e
      | .ok v => mergeLoop ks (result ++ [(k, v)], base, new)
    | none, none => mergeLoop ks (result, base, new)

/-- `Flask._merge_part`: merge two part definitions by the extension part
merging rule (union of property names; one-sided properties copied, shared
properties delegated to `apply_extension_property`). -/
def _merge_part (base_part new_part : List (String × Value)) :
    Except ExtError (List (String × Value)) :=
  (mergeLoop (unionKeys base_part new_part) ([], base_part, new_part)).map
    (fun st => st.1)

/-- `Flask._merge_existing_part`: merge the new part with the part of the
same name in the current document, missing pieces defaulting to empty
mappings. -/
def _merge_existing_part (env : FlaskEnv) (part_name : String)
    (part_def : List (String × Value)) : Except ExtError (List (String × Value)) :=
  match asMap (List.lookup "parts" env.yaml_data) with
  | none => .error .notAMapping
  | some parts =>
    match asMap (List.lookup part_name parts) with
    | none => .error .notAMapping
    | some existing_part => _merge_part existing_part part_def

/-- The fixed ignore list of `_gen_new_parts`. -/
def ignores : List String := [".git", "node_modules", ".yarn"]

/-- Python's `str.endswith`, as a suffix check on the character lists (the
byte-position arithmetic of `String.endsWith` does not reduce in the
kernel). -/
def strEndsWith (s pat : String) : Bool := List.isSuffixOf pat.data s.data

/-- The project files `_gen_new_parts` copies into the image: every entry of
the project root listing that is not ignored and does not end in `.rock`. -/
def source_files (env : FlaskEnv) : List String :=
  env.projectRootListing.filter
    (fun f => !(ignores.contains f) && !(strEndsWith f ".rock"))

/-- The renaming map `{f: os.path.join("srv/flask/app", f)}`; listing
entries are bare names, so the join is concatenation after a slash. -/
def renaming_map (env : FlaskEnv) : List (String × String) :=
  (source_files env).map (fun f => (f, "srv/flask/app/" ++ f))

/-- The `flask/install-app` part literal of `_gen_new_parts`. -/
def install_app_part (env : FlaskEnv) : List (String × Value) :=
  [("plugin", .scalar "dump"),
   ("source", .scalar "."),
   ("organize", .map ((renaming_map env).map (fun p => (p.1, Value.scalar p.2)))),
   ("stage", .seq ((renaming_map env).map (fun p => Value.scalar p.2)))]

/-- The `flask/dependencies` part literal of `_gen_new_parts`. -/
def dependencies_part : List (String × Value) :=
  [("plugin", .scalar "python"),
   ("stage-packages", .seq [.scalar "python3-venv"]),
   ("source", .scalar "."),
   ("python-packages", .seq [.scalar "gunicorn"]),
   ("python-requirements", .seq [.scalar "requirements.txt"])]

/-- `Flask._gen_new_parts`: require `requirements.txt` in the project root
(otherwise a `ValueError`), then produce the two flask parts, each merged
against any same-named existing part. -/
def _gen_new_parts (env : FlaskEnv) : Except ExtError (List (String × Value)) :=
  if "requirements.txt" ∈ env.projectRootListing then
    match _merge_existing_part env "flask/dependencies" dependencies_part with
    | .error e => .error e
    | .ok dep =>
      match _merge_existing_part env "flask/install-app" (install_app_part env) with
      | .error e => .error e
      | .ok app =>
        .ok [("flask/dependencies", Value.map dep), ("flask/install-app", Value.map app)]
  else .error .missingRequirementsTxt

/-- `Flask.get_root_snippet`: default root components (`run_user`,
`build-base` when the base defaults to or equals `bare`, `platforms`) are
added only when the key is absent, and the `parts` entry is the deep copy of
the current parts updated with the newly generated parts. -/
def get_root_snippet (env : FlaskEnv) : Except ExtError (List (String × Value)) :=
  let s1 : List (String × Value) :=
    if List.lookup "run_user" env.yaml_data = none
    then [("run_user", .scalar "_daemon_")] else []
  let s2 : List (String × Value) := s1 ++
    (if List.lookup "build-base" env.yaml_data = none ∧
        (List.lookup "base" env.yaml_data).getD (.scalar "bare") = .scalar "bare"
     then [("build-base", .scalar "ubuntu:22.04")] else [])
  let s3 : List (String × Value) := s2 ++
    (if List.lookup "platforms" env.yaml_data = none
     then [("platforms", .map [("amd64", .map [])])] else [])
  match asMap (List.lookup "parts" env.yaml_data) with
  | none => .error .notAMapping
  | some current_parts =>
    match _gen_new_parts env with
    | .error e => .error e
    | .ok new_parts => .ok (s3 ++ [("parts", .map (dictUpdate current_parts new_parts))])

/-- `Flask.get_part_snippet`: the part snippet applied to existing parts is
empty. -/
def get_part_snippet (_env : FlaskEnv) : List (String × Value) := []

/-- `Flask.get_parts_snippet`: the extension contributes nothing through
this hook (everything arrives through the root snippet). -/
def get_parts_snippet (_env : FlaskEnv) : List (String × Value) := []

/-- `Flask.get_supported_bases`. -/
def get_supported_bases : List String := ["bare", "ubuntu:20.04", "ubuntu:22.04"]

/-- `Flask.is_experimental`: unconditionally true. -/
def is_experimental (_base : Option String) : Bool := true

end Flask

/-! ## Association-list and deduplication lemmas -/

/-- A key lookup fails exactly when the key is not among the keys. -/
theorem lookup_eq_none_iff {α β : Type} [BEq α] [LawfulBEq α]
    {k : α} : ∀ {l : List (α × β)}, List.lookup k l = none ↔ k ∉ l.map Prod.fst := by
  intro l
  induction l with
  | nil => simp
  | cons p rest ih =>
    obtain ⟨k2, v2⟩ := p
    rw [List.lookup]
    cases hkk : (k == k2) with
    | true =>
      simp only [List.map_cons, List.mem_cons]
      simp only [eq_of_beq hkk]
      simp
    | false =>
      have hne : ¬ k = k2 := by
        intro h; rw [h] at hkk; simp at hkk
      simp [ih, hne]

/-- A successful key lookup puts the key among the keys. -/
theorem mem_keys_of_lookup {α β : Type} [BEq α] [LawfulBEq α]
    {k : α} {v : β} {l : List (α × β)} (h : List.lookup k l = some v) :
    k ∈ l.map Prod.fst := by
  by_contra hmem
  rw [← lookup_eq_none_iff] at hmem
  rw [h] at hmem
  exact Option.noConfusion hmem

/-- Membership is preserved by first-occurrence deduplication. -/
theorem mem_ddup {α : Type} [DecidableEq α] {x : α} :
    ∀ {l : List α}, x ∈ ddup l ↔ x ∈ l := by
  intro l
  induction l with
  | nil => simp [ddup]
  | cons y ys ih =>
    rw [ddup]
    by_cases hxy : x = y
    · subst hxy; simp
    · simp only [List.mem_cons, List.mem_filter, ih, decide_eq_true_eq]
      constructor
      · rintro (h | ⟨h, _⟩)
        · exact absurd h hxy
        · exact Or.inr h
      · rintro (h | h)
        · exact absurd h hxy
        · exact Or.inr ⟨h, hxy⟩

/-- First-occurrence deduplication yields a duplicate-free list. -/
theorem ddup_nodup {α : Type} [DecidableEq α] : ∀ (l : List α), (ddup l).Nodup := by
  intro l
  induction l with
  | nil => simp [ddup]
  | cons y ys ih =>
    rw [ddup]
    refine List.Nodup.cons ?_ (List.Nodup.filter _ ih)
    intro hmem
    have := (List.mem_filter.mp hmem).2
    simp at this

/-- Deduplication commutes with filtering. -/
theorem ddup_filter {α : Type} [DecidableEq α] (p : α → Bool) :
    ∀ (l : List α), (ddup l).filter p = ddup (l.filter p) := by
  intro l
  induction l with
  | nil => simp [ddup]
  | cons y ys ih =>
    cases hp : p y with
    | true =>
      simp only [ddup, List.filter_cons, hp, if_true, ← ih, List.filter_filter]
      congr 1
      apply List.filter_congr
      intro a _
      exact Bool.and_comm _ _
    | false =>
      simp only [ddup, List.filter_cons, hp, Bool.false_eq_true, if_false, ← ih,
        List.filter_filter]
      apply List.filter_congr
      intro a ha
      cases hpa : p a with
      | false => simp
      | true =>
        simp only [Bool.and_true, Bool.true_and, decide_eq_true_eq]
        intro hay
        rw [hay, hp] at hpa
        exact Bool.noConfusion hpa

/-- Looking up the key of the head entry returns its value. -/
theorem lookup_cons_self {α β : Type} [BEq α] [LawfulBEq α]
    {k : α} {v : β} {l : List (α × β)} : List.lookup k ((k, v) :: l) = some v := by
  simp [List.lookup]

/-- Looking up a key different from the head entry's key skips the head. -/
theorem lookup_cons_ne {α β : Type} [BEq α] [LawfulBEq α]
    {k k2 : α} {v : β} {l : List (α × β)} (h : ¬ k = k2) :
    List.lookup k ((k2, v) :: l) = List.lookup k l := by
  rw [List.lookup]
  have hbeq : (k == k2) = false := beq_eq_false_iff_ne.mpr h
  rw [hbeq]

/-- A lookup that succeeds on the first half of a concatenation succeeds on
the concatenation. -/
theorem lookup_append_some {α β : Type} [BEq α] {k : α} {v : β} :
    ∀ {l1 : List (α × β)} (l2 : List (α × β)),
      List.lookup k l1 = some v → List.lookup k (l1 ++ l2) = some v := by
  intro l1
  induction l1 with
  | nil => intro l2 h; cases h
  | cons p rest ih =>
    intro l2 h
    obtain ⟨k2, v2⟩ := p
    rw [List.cons_append, List.lookup]
    rw [List.lookup] at h
    cases hkk : (k == k2) with
    | true => rw [hkk] at h; exact h
    | false => rw [hkk] at h; exact ih l2 h

/-- A lookup that fails on the first half of a concatenation falls through
to the second half. -/
theorem lookup_append_none {α β : Type} [BEq α] {k : α} :
    ∀ {l1 : List (α × β)} (l2 : List (α × β)),
      List.lookup k l1 = none → List.lookup k (l1 ++ l2) = List.lookup k l2 := by
  intro l1
  induction l1 with
  | nil => intro l2 _; rw [List.nil_append]
  | cons p rest ih =>
    intro l2 h
    obtain ⟨k2, v2⟩ := p
    rw [List.cons_append, List.lookup]
    rw [List.lookup] at h
    cases hkk : (k == k2) with
    | true => rw [hkk] at h; exact Option.noConfusion h
    | false => rw [hkk] at h; exact ih l2 h

/-- Looking up a key different from a conditional singleton's key fails. -/
theorem lookup_ite_singleton_ne {α β : Type} [BEq α] [LawfulBEq α]
    {k k2 : α} {v : β} {c : Prop} [Decidable c] (h : ¬ k = k2) :
    List.lookup k (if c then [(k2, v)] else []) = none := by
  by_cases hc : c
  · rw [if_pos hc, lookup_cons_ne h]; rfl
  · rw [if_neg hc]; rfl

/-- Deduplicating a concatenation: the deduplicated base first, then the
deduplicated incoming elements that do not already occur in the base. -/
theorem ddup_append {α : Type} [DecidableEq α] :
    ∀ (a b : List α), ddup (a ++ b) = ddup a ++ ddup (b.filter (fun x => decide (x ∉ a))) := by
  intro a
  induction a with
  | nil => intro b; simp [ddup]
  | cons y ys ih =>
    intro b
    rw [List.cons_append, ddup, ih, ddup, List.filter_append, List.cons_append]
    congr 2
    rw [ddup_filter, List.filter_filter]
    congr 1
    apply List.filter_congr
    intro x _
    simp only [List.mem_cons, decide_not]
    by_cases h1 : x = y <;> by_cases h2 : x ∈ ys <;> simp [h1, h2]

/-! ## Characterisation of the part merge -/

/-- The per-property value the part merge is specified to produce (the
PartMerger contract): a property present on one side only is copied, a
property present on both sides goes through the property merge. -/
def expectedMerge (base new : List (String × Value)) (k : String) : Option Value :=
  match List.lookup k base, List.lookup k new with
  | some v, none => some v
  | none, some v => some v
  | some v1, some v2 => (apply_extension_property v1 v2).toOption
  | none, none => none

/-- The entries the `_merge_part` loop produces for a given property order
(proof-side reformulation of `Flask.mergeLoop` without the threaded
state). -/
def mergeEntries (base new : List (String × Value)) :
    List String → Except ExtError (List (String × Value))
  | [] => .ok []
  | k :: ks =>
    match List.lookup k base, List.lookup k new with
    | some v, none => (mergeEntries base new ks).map (fun l => (k, v) :: l)
    | none, some v => (mergeEntries base new ks).map (fun l => (k, v) :: l)
    | some v1, some v2 =>
      match apply_extension_property v1 v2 with
      | .error e => .error e
      | .ok v => (mergeEntries base new ks).map (fun l => (k, v) :: l)
    | none, none => mergeEntries base new ks

/-- The stateful loop equals the pure entry computation, with the result
accumulator appended in front and the two input parts returned untouched. -/
theorem mergeLoop_eq_mergeEntries (base new : List (String × Value)) :
    ∀ (props : List String) (res : List (String × Value)),
      Flask.mergeLoop props (res, base, new) =
        (mergeEntries base new props).map (fun l => (res ++ l, base, new)) := by
  intro props
  induction props with
  | nil => intro res; simp [Flask.mergeLoop, mergeEntries, Except.map]
  | cons k ks ih =>
    intro res
    cases hb : List.lookup k base with
    | none =>
      cases hn : List.lookup k new with
      | none =>
        simp only [Flask.mergeLoop, mergeEntries, hb, hn]
        exact ih res
      | some v =>
        simp only [Flask.mergeLoop, mergeEntries, hb, hn, ih (res ++ [(k, v)])]
        cases mergeEntries base new ks <;> simp [Except.map]
    | some v1 =>
      cases hn : List.lookup k new with
      | none =>
        simp only [Flask.mergeLoop, mergeEntries, hb, hn, ih (res ++ [(k, v1)])]
        cases mergeEntries base new ks <;> simp [Except.map]
      | some v2 =>
        cases ha : apply_extension_property v1 v2 with
        | error e =>
          simp only [Flask.mergeLoop, mergeEntries, hb, hn, ha]
          simp [Except.map]
        | ok v =>
          simp only [Flask.mergeLoop, mergeEntries, hb, hn, ha, ih (res ++ [(k, v)])]
          cases mergeEntries base new ks <;> simp [Except.map]

/-- `_merge_part` computes exactly the merged entries in union-key order. -/
theorem merge_part_eq_mergeEntries (base new : List (String × Value)) :
    Flask._merge_part base new = mergeEntries base new (Flask.unionKeys base new) := by
  rw [Flask._merge_part, mergeLoop_eq_mergeEntries]
  cases mergeEntries base new (Flask.unionKeys base new) <;> simp [Except.map]

/-- Lookup characterisation of a successful entry merge: a key in the
property list maps to its expected merged value, any other key is absent. -/
theorem mergeEntries_ok_lookup (base new : List (String × Value)) :
    ∀ (props : List String) (l : List (String × Value)),
      mergeEntries base new props = .ok l →
      ∀ k, List.lookup k l = if k ∈ props then expectedMerge base new k else none := by
  intro props
  induction props with
  | nil =>
    intro l h k
    rw [mergeEntries] at h
    cases h
    simp
  | cons k2 ks ih =>
    intro l h k
    rw [mergeEntries] at h
    cases hb : List.lookup k2 base with
    | none =>
      cases hn : List.lookup k2 new with
      | none =>
        simp only [hb, hn] at h
        rw [ih l h k]
        by_cases hk : k = k2
        · subst hk
          simp [expectedMerge, hb, hn]
        · simp [List.mem_cons, hk]
      | some v =>
        simp only [hb, hn] at h
        cases hm : mergeEntries base new ks with
        | error e => rw [hm] at h; simp [Except.map] at h
        | ok l2 =>
          rw [hm] at h
          simp only [Except.map] at h
          cases h
          by_cases hk : k = k2
          · subst hk
            rw [lookup_cons_self]
            simp [expectedMerge, hb, hn]
          · rw [lookup_cons_ne hk, ih l2 hm k]
            simp [List.mem_cons, hk]
    | some v1 =>
      cases hn : List.lookup k2 new with
      | none =>
        simp only [hb, hn] at h
        cases hm : mergeEntries base new ks with
        | error e => rw [hm] at h; simp [Except.map] at h
        | ok l2 =>
          rw [hm] at h
          simp only [Except.map] at h
          cases h
          by_cases hk : k = k2
          · subst hk
            rw [lookup_cons_self]
            simp [expectedMerge, hb, hn]
          · rw [lookup_cons_ne hk, ih l2 hm k]
            simp [List.mem_cons, hk]
      | some v2 =>
        simp only [hb, hn] at h
        cases ha : apply_extension_property v1 v2 with
        | error e => simp only [ha] at h; cases h
        | ok v =>
          simp only [ha] at h
          cases hm : mergeEntries base new ks with
          | error e => rw [hm] at h; simp [Except.map] at h
          | ok l2 =>
            rw [hm] at h
            simp only [Except.map] at h
            cases h
            by_cases hk : k = k2
            · subst hk
              rw [lookup_cons_self]
              simp [expectedMerge, hb, hn, ha, Except.toOption]
            · rw [lookup_cons_ne hk, ih l2 hm k]
              simp [List.mem_cons, hk]

/-- Any error of the entry merge originates verbatim from the property merge
of a key present on both sides. -/
theorem mergeEntries_error_src (base new : List (String × Value)) :
    ∀ (props : List String) (e : ExtError),
      mergeEntries base new props = .error e →
      ∃ k, k ∈ props ∧ ∃ v1 v2, List.lookup k base = some v1 ∧
        List.lookup k new = some v2 ∧ apply_extension_property v1 v2 = .error e := by
  intro props
  induction props with
  | nil => intro e h; rw [mergeEntries] at h; cases h
  | cons k2 ks ih =>
    intro e h
    rw [mergeEntries] at h
    cases hb : List.lookup k2 base with
    | none =>
      cases hn : List.lookup k2 new with
      | none =>
        simp only [hb, hn] at h
        obtain ⟨k, hk, hrest⟩ := ih e h
        exact ⟨k, List.mem_cons_of_mem _ hk, hrest⟩
      | some v =>
        simp only [hb, hn] at h
        cases hm : mergeEntries base new ks with
        | error e2 =>
          rw [hm] at h
          simp only [Except.map] at h
          cases h
          obtain ⟨k, hk, hrest⟩ := ih _ hm
          exact ⟨k, List.mem_cons_of_mem _ hk, hrest⟩
        | ok l2 => rw [hm] at h; simp [Except.map] at h
    | some v1 =>
      cases hn : List.lookup k2 new with
      | none =>
        simp only [hb, hn] at h
        cases hm : mergeEntries base new ks with
        | error e2 =>
          rw [hm] at h
          simp only [Except.map] at h
          cases h
          obtain ⟨k, hk, hrest⟩ := ih _ hm
          exact ⟨k, List.mem_cons_of_mem _ hk, hrest⟩
        | ok l2 => rw [hm] at h; simp [Except.map] at h
      | some v2 =>
        simp only [hb, hn] at h
        cases ha : apply_extension_property v1 v2 with
        | error e2 =>
          rw [ha] at h
          cases h
          exact ⟨k2, List.mem_cons_self _ _, v1, v2, hb, hn, ha⟩
        | ok v =>
          simp only [ha] at h
          cases hm : mergeEntries base new ks with
          | error e2 =>
            rw [hm] at h
            simp only [Except.map] at h
            cases h
            obtain ⟨k, hk, hrest⟩ := ih _ hm
            exact ⟨k, List.mem_cons_of_mem _ hk, hrest⟩
          | ok l2 => rw [hm] at h; simp [Except.map] at h

/-- If the property merge of some key present on both sides fails, the entry
merge fails (fail fast, no partial merge). -/
theorem mergeEntries_error_exists (base new : List (String × Value)) :
    ∀ (props : List String) (k : String) (v1 v2 : Value) (e : ExtError),
      k ∈ props → List.lookup k base = some v1 → List.lookup k new = some v2 →
      apply_extension_property v1 v2 = .error e →
      ∃ e2, mergeEntries base new props = .error e2 := by
  intro props
  induction props with
  | nil => intro k v1 v2 e hk; cases hk
  | cons k2 ks ih =>
    intro k v1 v2 e hk hbk hnk ha
    rw [mergeEntries]
    cases hb : List.lookup k2 base with
    | none =>
      have hk2 : k ∈ ks := by
        rcases List.mem_cons.mp hk with h | h
        · subst h; rw [hbk] at hb; cases hb
        · exact h
      cases hn : List.lookup k2 new with
      | none =>
        simp only [hb, hn]
        exact ih k v1 v2 e hk2 hbk hnk ha
      | some v =>
        simp only [hb, hn]
        obtain ⟨e2, he2⟩ := ih k v1 v2 e hk2 hbk hnk ha
        rw [he2]
        exact ⟨e2, rfl⟩
    | some w1 =>
      cases hn : List.lookup k2 new with
      | none =>
        simp only [hb, hn]
        have hk2 : k ∈ ks := by
          rcases List.mem_cons.mp hk with h | h
          · subst h; rw [hnk] at hn; cases hn
          · exact h
        obtain ⟨e2, he2⟩ := ih k v1 v2 e hk2 hbk hnk ha
        rw [he2]
        exact ⟨e2, rfl⟩
      | some w2 =>
        simp only [hb, hn]
        cases ha2 : apply_extension_property w1 w2 with
        | error e2 => simp only [ha2]; exact ⟨e2, rfl⟩
        | ok v =>
          simp only [ha2]
          have hk2 : k ∈ ks := by
            rcases List.mem_cons.mp hk with h | h
            · subst h
              rw [hbk] at hb
              rw [hnk] at hn
              cases hb
              cases hn
              rw [ha] at ha2
              cases ha2
            · exact h
          obtain ⟨e2, he2⟩ := ih k v1 v2 e hk2 hbk hnk ha
          rw [he2]
          exact ⟨e2, rfl⟩

/-- Deduplication leaves a duplicate-free list unchanged. -/
theorem ddup_eq_self_of_nodup {α : Type} [DecidableEq α] :
    ∀ {l : List α}, l.Nodup → ddup l = l := by
  intro l
  induction l with
  | nil => intro _; rfl
  | cons x xs ih =>
    intro h
    rw [List.nodup_cons] at h
    rw [ddup, ih h.2]
    congr 1
    rw [List.filter_eq_self]
    intro a ha
    simp only [decide_eq_true_eq]
    intro hax
    rw [hax] at ha
    exact h.1 ha

/-! ## Claims -/

/-- C1: for every pair of parts, `_merge_part` returns a mapping whose key
set is exactly the union of the two parts' property names; a property
present only in one part keeps that part's value unchanged, a property
present in both maps to the result of `apply_extension_property` on the two
values, and any error of that property merge is propagated unchanged
(fail fast: a failing shared property makes the whole part merge fail). -/
theorem flask_merge_part_spec (base_part new_part : List (String × Value)) :
    (∀ r, Flask._merge_part base_part new_part = .ok r →
      (∀ k, List.lookup k r = expectedMerge base_part new_part k) ∧
      (∀ k, (List.lookup k r).isSome ↔
        ((List.lookup k base_part).isSome ∨ (List.lookup k new_part).isSome))) ∧
    (∀ e, Flask._merge_part base_part new_part = .error e →
      ∃ k v1 v2, List.lookup k base_part = some v1 ∧ List.lookup k new_part = some v2 ∧
        apply_extension_property v1 v2 = .error e) ∧
    (∀ k v1 v2 e, List.lookup k base_part = some v1 → List.lookup k new_part = some v2 →
      apply_extension_property v1 v2 = .error e →
      ∃ e2, Flask._merge_part base_part new_part = .error e2) := by
  rw [merge_part_eq_mergeEntries]
  refine ⟨?_, ?_, ?_⟩
  · intro r hr
    have hlook := mergeEntries_ok_lookup base_part new_part _ r hr
    have hnone : ∀ k, k ∉ Flask.unionKeys base_part new_part →
        List.lookup k base_part = none ∧ List.lookup k new_part = none := by
      intro k hk
      rw [Flask.unionKeys, mem_ddup, List.mem_append] at hk
      push_neg at hk
      exact ⟨lookup_eq_none_iff.mpr hk.1, lookup_eq_none_iff.mpr hk.2⟩
    constructor
    · intro k
      rw [hlook k]
      by_cases hk : k ∈ Flask.unionKeys base_part new_part
      · simp [hk]
      · obtain ⟨hb, hn⟩ := hnone k hk
        simp [hk, expectedMerge, hb, hn]
    · intro k
      rw [hlook k]
      by_cases hk : k ∈ Flask.unionKeys base_part new_part
      · simp only [hk, if_true]
        cases hb : List.lookup k base_part with
        | some v1 =>
          cases hn : List.lookup k new_part with
          | some v2 =>
            cases ha : apply_extension_property v1 v2 with
            | error e =>
              obtain ⟨e2, he2⟩ :=
                mergeEntries_error_exists base_part new_part
                  (Flask.unionKeys base_part new_part) k v1 v2 e hk hb hn ha
              rw [he2] at hr
              cases hr
            | ok v => simp [expectedMerge, hb, hn, ha, Except.toOption]
          | none => simp [expectedMerge, hb, hn]
        | none =>
          cases hn : List.lookup k new_part with
          | some v2 => simp [expectedMerge, hb, hn]
          | none =>
            exfalso
            rw [Flask.unionKeys, mem_ddup, List.mem_append] at hk
            rcases hk with hk | hk
            · exact (lookup_eq_none_iff.mp hb) hk
            · exact (lookup_eq_none_iff.mp hn) hk
      · obtain ⟨hb, hn⟩ := hnone k hk
        simp [hk, hb, hn]
  · intro e he
    obtain ⟨k, _, v1, v2, hb, hn, ha⟩ := mergeEntries_error_src base_part new_part _ e he
    exact ⟨k, v1, v2, hb, hn, ha⟩
  · intro k v1 v2 e hb hn ha
    apply mergeEntries_error_exists base_part new_part _ k v1 v2 e ?_ hb hn ha
    rw [Flask.unionKeys, mem_ddup, List.mem_append]
    exact Or.inl (mem_keys_of_lookup hb)

/-- Witness for C1 at a concrete pair of parts. -/
theorem flask_merge_part_spec_witness :
    Flask._merge_part [("a", Value.scalar "1")] [("b", Value.scalar "2")]
      = .ok [("a", Value.scalar "1"), ("b", Value.scalar "2")] ∧
    List.lookup "a" [("a", Value.scalar "1"), ("b", Value.scalar "2")]
      = expectedMerge [("a", Value.scalar "1")] [("b", Value.scalar "2")] "a" :=
  ⟨by decide,
    ((flask_merge_part_spec [("a", Value.scalar "1")] [("b", Value.scalar "2")]).1
      [("a", Value.scalar "1"), ("b", Value.scalar "2")] (by decide)).1 "a"⟩

/-- C2: the sequence merge returns the base sequence followed by the
incoming elements not already present, deduplicated so that every element
occurs exactly once, base elements first in their original relative order of
first occurrence and incoming-only elements after them in theirs; in
particular merging the duplicate-free sequences x,y and y,z gives x,y,z. -/
theorem property_merge_seq_spec (A B : List Value) :
    apply_extension_property (.seq A) (.seq B) = .ok (.seq (ddup (A ++ B))) ∧
    (∀ x, x ∈ ddup (A ++ B) ↔ x ∈ A ∨ x ∈ B) ∧
    (ddup (A ++ B)).Nodup ∧
    ddup (A ++ B) = ddup A ++ ddup (B.filter (fun x => decide (x ∉ A))) ∧
    (A.Nodup → B.Nodup → ddup (A ++ B) = A ++ B.filter (fun x => decide (x ∉ A))) ∧
    apply_extension_property (.seq [.scalar "x", .scalar "y"])
        (.seq [.scalar "y", .scalar "z"])
      = .ok (.seq [.scalar "x", .scalar "y", .scalar "z"]) := by
  refine ⟨rfl, ?_, ddup_nodup _, ddup_append A B, ?_, by decide⟩
  · intro x
    rw [mem_ddup, List.mem_append]
  · intro hA hB
    rw [ddup_append A B, ddup_eq_self_of_nodup hA,
      ddup_eq_self_of_nodup (List.Nodup.filter _ hB)]

/-- Witness for C2 at a concrete pair of duplicate-free sequences. -/
theorem property_merge_seq_spec_witness :
    ([Value.scalar "x", Value.scalar "y"] : List Value).Nodup ∧
    ([Value.scalar "y", Value.scalar "z"] : List Value).Nodup ∧
    ddup ([Value.scalar "x", Value.scalar "y"] ++ [Value.scalar "y", Value.scalar "z"])
      = [Value.scalar "x", Value.scalar "y"] ++
        ([Value.scalar "y", Value.scalar "z"].filter
          (fun x => decide (x ∉ [Value.scalar "x", Value.scalar "y"]))) :=
  ⟨by decide, by decide,
    (property_merge_seq_spec [Value.scalar "x", Value.scalar "y"]
      [Value.scalar "y", Value.scalar "z"]).2.2.2.2.1 (by decide) (by decide)⟩

/-- C3: merging two scalars (no scalar is designated accumulative in this
extract) fails with a ConflictError exactly when they differ, and returns
the common scalar without error when they are equal. -/
theorem property_merge_scalar_spec (s1 s2 : String) :
    (apply_extension_property (.scalar s1) (.scalar s2)
        = .error (.conflict (.scalar s1) (.scalar s2)) ↔ s1 ≠ s2) ∧
    (s1 = s2 → apply_extension_property (.scalar s1) (.scalar s2) = .ok (.scalar s1)) ∧
    (∀ e, apply_extension_property (.scalar s1) (.scalar s2) = .error e → s1 ≠ s2) := by
  by_cases h : s1 = s2
  · subst h
    refine ⟨?_, fun _ => ?_, ?_⟩
    · simp [apply_extension_property]
    · simp [apply_extension_property]
    · intro e he
      simp [apply_extension_property] at he
  · refine ⟨?_, fun hh => absurd hh h, fun e _ => h⟩
    simp [apply_extension_property, h]

/-- Witness for C3 at concrete equal and unequal scalars. -/
theorem property_merge_scalar_spec_witness :
    ("a" : String) = "a" ∧
    apply_extension_property (.scalar "a") (.scalar "a") = .ok (.scalar "a") :=
  ⟨rfl, (property_merge_scalar_spec "a" "a").2.1 rfl⟩

/-- C8: the `_merge_part` loop accumulates its result in a fresh mapping and
never writes to its two input parts: whenever the loop finishes, the final
values of `base_part` and `new_part` in its threaded state are exactly the
ones passed in. -/
theorem flask_merge_part_no_mutation (props : List String)
    (res base_part new_part : List (String × Value))
    (st : List (String × Value) × List (String × Value) × List (String × Value))
    (h : Flask.mergeLoop props (res, base_part, new_part) = .ok st) :
    st.2.1 = base_part ∧ st.2.2 = new_part := by
  rw [mergeLoop_eq_mergeEntries] at h
  cases hm : mergeEntries base_part new_part props with
  | error e => rw [hm] at h; cases h
  | ok l =>
    rw [hm] at h
    simp only [Except.map] at h
    cases h
    exact ⟨rfl, rfl⟩

/-- Witness for C8 at a concrete merge. -/
theorem flask_merge_part_no_mutation_witness :
    Flask.mergeLoop ["a"] ([], [("a", Value.scalar "x")], [])
      = .ok ([("a", Value.scalar "x")], [("a", Value.scalar "x")], []) ∧
    (([("a", Value.scalar "x")], [("a", Value.scalar "x")],
        ([] : List (String × Value))).2.1 = [("a", Value.scalar "x")] ∧
      ([("a", Value.scalar "x")], [("a", Value.scalar "x")],
        ([] : List (String × Value))).2.2 = ([] : List (String × Value))) :=
  ⟨by decide,
    flask_merge_part_no_mutation ["a"] [] [("a", Value.scalar "x")] []
      ([("a", Value.scalar "x")], [("a", Value.scalar "x")], []) (by decide)⟩

/-- C9: for every document state, both the per-part hook `get_part_snippet`
and the parts hook `get_parts_snippet` of the Flask extension return the
empty mapping, so all contributions arrive through the root snippet. -/
theorem flask_part_snippets_empty (env : FlaskEnv) :
    Flask.get_part_snippet env = [] ∧ Flask.get_parts_snippet env = [] :=
  ⟨rfl, rfl⟩

/-- C10: `is_experimental` returns true for every base, including the
absent one. -/
theorem flask_is_experimental_always (base : Option String) :
    Flask.is_experimental base = true := rfl

/-- The end-to-end scenario environment: empty document, project root
containing only `requirements.txt`. -/
def envEmpty : FlaskEnv :=
  { yaml_data := [], projectRootListing := ["requirements.txt"] }

/-- The parts mapping the Flask extension produces over `envEmpty`: both
flask parts, merged against nothing. -/
def partsAfterFlask : List (String × Value) :=
  [("flask/dependencies", Value.map Flask.dependencies_part),
   ("flask/install-app", Value.map (Flask.install_app_part envEmpty))]

/-- The document resulting from applying the Flask extension to the empty
document (the root snippet itself, as every key it contributes is absent
from the empty document). -/
def docAfterFlask : List (String × Value) :=
  [("run_user", Value.scalar "_daemon_"),
   ("build-base", Value.scalar "ubuntu:22.04"),
   ("platforms", Value.map [("amd64", Value.map [])]),
   ("parts", Value.map partsAfterFlask)]

/-- The environment of a second application of the Flask extension to its
own merged output. -/
def envSecond : FlaskEnv :=
  { yaml_data := docAfterFlask, projectRootListing := ["requirements.txt"] }

/-- C4: the root snippet of the Flask extension contains the scalar defaults
only for keys absent from the current document: it has a `run_user` entry
(value `_daemon_`) iff the document lacks `run_user`, and a `platforms`
entry (value the `amd64` mapping) iff the document lacks `platforms`; an
explicit user-set value for these keys is never overridden. -/
theorem flask_root_snippet_only_absent_defaults (env : FlaskEnv)
    (r : List (String × Value)) (h : Flask.get_root_snippet env = .ok r) :
    List.lookup "run_user" r =
      (if List.lookup "run_user" env.yaml_data = none
       then some (Value.scalar "_daemon_") else none) ∧
    List.lookup "platforms" r =
      (if List.lookup "platforms" env.yaml_data = none
       then some (Value.map [("amd64", Value.map [])]) else none) := by
  rw [Flask.get_root_snippet] at h
  cases hpm : Flask.asMap (List.lookup "parts" env.yaml_data) with
  | none => rw [hpm] at h; cases h
  | some current_parts =>
    rw [hpm] at h
    cases hgen : Flask._gen_new_parts env with
    | error e => rw [hgen] at h; cases h
    | ok new_parts =>
      rw [hgen] at h
      cases h
      rw [List.append_assoc, List.append_assoc]
      constructor
      · by_cases h1 : List.lookup "run_user" env.yaml_data = none
        · rw [if_pos h1, if_pos h1]
          exact lookup_append_some _ lookup_cons_self
        · rw [if_neg h1, if_neg h1, List.nil_append]
          rw [lookup_append_none _ (lookup_ite_singleton_ne (by decide))]
          rw [lookup_append_none _ (lookup_ite_singleton_ne (by decide))]
          rw [lookup_cons_ne (by decide)]
          rfl
      · rw [lookup_append_none _ (lookup_ite_singleton_ne (by decide))]
        rw [lookup_append_none _ (lookup_ite_singleton_ne (by decide))]
        by_cases h3 : List.lookup "platforms" env.yaml_data = none
        · rw [if_pos h3, if_pos h3]
          exact lookup_append_some _ lookup_cons_self
        · rw [if_neg h3, if_neg h3, List.nil_append]
          rw [lookup_cons_ne (by decide)]
          rfl

/-- Witness for C4 on the empty document. -/
theorem flask_root_snippet_only_absent_defaults_witness :
    Flask.get_root_snippet envEmpty = .ok docAfterFlask ∧
    (List.lookup "run_user" docAfterFlask =
      (if List.lookup "run_user" envEmpty.yaml_data = none
       then some (Value.scalar "_daemon_") else none) ∧
     List.lookup "platforms" docAfterFlask =
      (if List.lookup "platforms" envEmpty.yaml_data = none
       then some (Value.map [("amd64", Value.map [])]) else none)) :=
  ⟨by decide,
    flask_root_snippet_only_absent_defaults envEmpty docAfterFlask (by decide)⟩

/-- C7: when the project root has no `requirements.txt` (and the document's
`parts`, if present, is a mapping, so the part-generation step is reached as
in the source), computing the root snippet fails with the
missing-requirements error; the embedding is pure, so the input document is
left untouched and no merge output is produced. -/
theorem flask_missing_requirements_error (env : FlaskEnv)
    (hreq : "requirements.txt" ∉ env.projectRootListing)
    (hparts : (Flask.asMap (List.lookup "parts" env.yaml_data)).isSome) :
    Flask.get_root_snippet env = .error .missingRequirementsTxt := by
  obtain ⟨current_parts, hcp⟩ := Option.isSome_iff_exists.mp hparts
  have hgen : Flask._gen_new_parts env = .error .missingRequirementsTxt := by
    rw [Flask._gen_new_parts, if_neg hreq]
  rw [Flask.get_root_snippet, hcp, hgen]

/-- Witness for C7 on the empty document over an empty project root. -/
theorem flask_missing_requirements_error_witness :
    ("requirements.txt" ∉ FlaskEnv.projectRootListing ⟨[], []⟩) ∧
    (Flask.asMap (List.lookup "parts" (FlaskEnv.yaml_data ⟨[], []⟩))).isSome = true ∧
    Flask.get_root_snippet ⟨[], []⟩ = .error .missingRequirementsTxt :=
  ⟨by decide, by decide,
    flask_missing_requirements_error ⟨[], []⟩ (by decide) (by decide)⟩

/-- C5 counterexample: applying the Flask extension to the empty document
(project root containing `requirements.txt`) yields a root snippet that,
besides `run_user`, `platforms` and `parts`, also contains the root key
`build-base` (the empty document's base defaults to `bare`), so the claim
that no root-level key beyond the listed ones is added fails. -/
theorem flask_empty_doc_extra_key :
    Flask.get_root_snippet envEmpty = .ok docAfterFlask ∧
    List.lookup "build-base" docAfterFlask = some (Value.scalar "ubuntu:22.04") := by
  constructor
  · decide
  · decide

/-- C5 amended: applying the Flask extension to the empty document (project
root containing `requirements.txt`) yields a document with
`run_user = "_daemon_"`, `platforms = {"amd64": {}}`,
`build-base = "ubuntu:22.04"`, and a parts mapping containing the
dependencies part with its stage-packages (together with the install-app
part); these four are the only root-level keys. -/
theorem flask_empty_doc_result :
    Flask.get_root_snippet envEmpty = .ok docAfterFlask ∧
    docAfterFlask.map Prod.fst = ["run_user", "build-base", "platforms", "parts"] ∧
    List.lookup "run_user" docAfterFlask = some (Value.scalar "_daemon_") ∧
    List.lookup "platforms" docAfterFlask = some (Value.map [("amd64", Value.map [])]) ∧
    List.lookup "build-base" docAfterFlask = some (Value.scalar "ubuntu:22.04") ∧
    List.lookup "parts" docAfterFlask = some (Value.map partsAfterFlask) ∧
    List.lookup "flask/dependencies" partsAfterFlask
      = some (Value.map Flask.dependencies_part) ∧
    List.lookup "stage-packages" Flask.dependencies_part
      = some (Value.seq [Value.scalar "python3-venv"]) := by
  refine ⟨by decide, by decide, by decide, by decide, by decide, by decide, by decide,
    by decide⟩

/-- C6: applying the Flask extension a second time to its own merged output
gives a root snippet containing only a `parts` entry identical to the
document's existing parts — the previously set root defaults are not
re-added, overlaying the snippet changes nothing, and merging a flask part
into an identical existing part returns the very same part (list-valued
properties like stage-packages are deduplicated, not duplicated). -/
theorem flask_second_apply_no_change :
    Flask.get_root_snippet envSecond = .ok [("parts", Value.map partsAfterFlask)] ∧
    List.lookup "parts" docAfterFlask = some (Value.map partsAfterFlask) ∧
    Flask.dictUpdate docAfterFlask [("parts", Value.map partsAfterFlask)] = docAfterFlask ∧
    Flask._merge_part Flask.dependencies_part Flask.dependencies_part
      = .ok Flask.dependencies_part ∧
    Flask._merge_part (Flask.install_app_part envEmpty) (Flask.install_app_part envEmpty)
      = .ok (Flask.install_app_part envEmpty) := by
  refine ⟨by decide, by decide, by decide, by decide, by decide⟩
